import Mathlib

/-!
Verification of the CipherDash transformation/scoring core against its
specification. Strings are modeled as lists of characters; JavaScript number
arithmetic is modeled exactly with `ℚ`/`ℝ` (and `ℤ`/`ℕ` where the values are
integral), with the JS `%` operator on integers rendered as `Int.tmod`
(truncated remainder, sign of the dividend). JS `toUpperCase` and the regex
test `/[A-Z]/` are modeled on the ASCII range, which is the alphabet the
cipher operates on.
-/

namespace CipherDash

/-- The regex test `/[A-Z]/.test(char)`: ASCII uppercase letter. -/
def isAZ (c : Char) : Bool := 65 ≤ c.toNat && c.toNat ≤ 90

/-- ASCII lowercase letter `a`-`z`. -/
def isLowerAZ (c : Char) : Bool := 97 ≤ c.toNat && c.toNat ≤ 122

/-- JS `String.prototype.toUpperCase`, restricted to the ASCII range
(the cipher alphabet): `a`-`z` maps to `A`-`Z`, everything else unchanged. -/
def jsToUpper (c : Char) : Char :=
  if 97 ≤ c.toNat && c.toNat ≤ 122 then Char.ofNat (c.toNat - 32) else c

/-!  ShiftNode (nodes.js, `ShiftNode.apply`, lines 54-65): uppercase the
input, then shift each A-Z letter by `(code + key) % 26` where `%` is the JS
truncated remainder; non-letters pass through. -/

/-- Per-character body of `ShiftNode.apply`:
`String.fromCharCode((char.charCodeAt(0) - 65 + key) % 26 + 65)`. -/
def shiftChar (key : ℤ) (c : Char) : Char :=
  if isAZ c then Char.ofNat ((((c.toNat : ℤ) - 65 + key).tmod 26 + 65).toNat) else c

/-- `ShiftNode.apply(input, key)` (nodes.js lines 54-65). -/
def shiftApply (key : ℤ) (input : List Char) : List Char :=
  (input.map jsToUpper).map (shiftChar key)

/-- `ReverseNode.apply` (nodes.js lines 82-84): reverse the character list. -/
def reverseApply (input : List Char) : List Char := input.reverse

/-- Per-character body of `MultiplyNode.apply`:
`String.fromCharCode((key * (char.charCodeAt(0) - 65)) % 26 + 65)`. -/
def mulChar (key : ℤ) (c : Char) : Char :=
  if isAZ c then Char.ofNat (((key * ((c.toNat : ℤ) - 65)).tmod 26 + 65).toNat) else c

/-- `MultiplyNode.apply(input, key)` (nodes.js lines 121-131). -/
def multiplyApply (key : ℤ) (input : List Char) : List Char :=
  (input.map jsToUpper).map (mulChar key)

/-- The `validKeys` array of `MultiplyNode.validateKey` (nodes.js line 108). -/
def validKeysList : List ℤ := [1, 3, 5, 7, 9, 11, 15, 17, 19, 21, 23, 25]

/-- JS array read `l[i]`: `undefined` (here `none`) for a negative or
out-of-range index. -/
def jsArrayGet (l : List ℤ) (i : ℤ) : Option ℤ :=
  if 0 ≤ i then l.get? i.toNat else none

/-- `MultiplyNode.validateKey(key)` (nodes.js lines 107-115), acting on the
currently stored key `cur` (`none` models a stored JS `undefined`). The key
field is reassigned only when `key % 26` is not in `validKeys`; the fallback
is `validKeys[key % validKeys.length]` with `validKeys.length = 12`. -/
def multiplyValidateKey (key : ℤ) (cur : Option ℤ) : Option ℤ :=
  if key.tmod 26 ∈ validKeysList then cur
  else jsArrayGet validKeysList (key.tmod 12)

/-- The `MultiplyNode` constructor's effect on the stored key (nodes.js lines
97-101): `this.key = key` followed by `this.validateKey(key)`. -/
def multiplyNew (key : ℤ) : Option ℤ := multiplyValidateKey key (some key)

/-- `MultiplyNode.setKey(key)` (nodes.js lines 117-119): only calls
`validateKey`, which assigns the key field only in its correction branch. -/
def multiplySetKey (key : ℤ) (cur : Option ℤ) : Option ℤ := multiplyValidateKey key cur

/-!  PolygonNode.  Its `apply` reads only the derived fields `numSides`,
`convex` and `sideVariance`, all fixed at construction (`sideVariance` is a
standard deviation of edge lengths, hence nonnegative for every vertex
list). We model the node by those fields; `sideVariance` is an exact
rational standing for the JS float. -/

structure PolygonNode where
  numSides : ℕ
  convex : Bool
  sideVariance : ℚ
deriving DecidableEq

/-- `this.numSides % 26 || 3` — the shift amount used by `PolygonNode.apply`
(nodes.js line 357): JS `||` replaces a zero (falsy) left operand by 3. -/
def polygonShiftAmount (numSides : ℕ) : ℕ :=
  if numSides % 26 = 0 then 3 else numSides % 26

/-- `PolygonNode.apply(input)` (nodes.js lines 355-392). Stage 1 shifts the
uppercased input by `polygonShiftAmount`; stage 2 (convex only) multiplies by
`validKeys[Math.floor(this.sideVariance * 2) % validKeys.length]`. The array
index is in range whenever `sideVariance ≥ 0`, which holds for every
constructed node; the unreachable negative-index read is modeled by the
`getD` default. -/
def polygonApply (p : PolygonNode) (input : List Char) : List Char :=
  let shiftAmount := polygonShiftAmount p.numSides
  let result := (input.map jsToUpper).map fun c =>
    if isAZ c then Char.ofNat ((c.toNat - 65 + shiftAmount) % 26 + 65) else c
  if p.convex then
    let key : ℤ := validKeysList.getD ((Int.floor (p.sideVariance * 2)).tmod 12).toNat 0
    result.map fun c =>
      if isAZ c then Char.ofNat (((key * ((c.toNat : ℤ) - 65)).tmod 26 + 65).toNat) else c
  else result

/-!  Pipeline.  A `CipherPipeline` owns an ordered list of nodes; only the
node list itself matters to the claims under verification. -/

/-- The closed set of node variants, tagged as in the source (`node.type`). -/
inductive CipherNode where
  | shift (key : ℤ)
  | reverse
  | multiply (key : Option ℤ)
  | polygon (p : PolygonNode)
deriving DecidableEq

/-- `CipherPipeline.removeNode(index)` (nodes.js lines 160-162), i.e.
`this.nodes.splice(index, 1)`: JS `splice` clamps a negative start to
`max(length + index, 0)` and a nonnegative one to `min(index, length)`, then
deletes at most one element at that position. -/
def removeNode (nodes : List CipherNode) (index : ℤ) : List CipherNode :=
  let s : ℕ := if index < 0 then (max ((nodes.length : ℤ) + index) 0).toNat
               else (min index (nodes.length : ℤ)).toNat
  nodes.take s ++ nodes.drop (s + 1)

/-!  Scoring engine (evaluator.js).  The file declares each scoring function
twice; under JS function hoisting the later declaration is the effective one,
so the definitions below embed the second versions (lines 323-518).  Real
numbers stand for the JS floats. -/

/-- `calculateEntropy(text)` (evaluator.js lines 323-337): Shannon entropy in
bits over the character-frequency distribution of the full string, summed
over the distinct characters in first-occurrence order. -/
noncomputable def calculateEntropy (text : List Char) : ℝ :=
  (text.dedup.map fun c =>
    let p : ℝ := (text.count c : ℝ) / (text.length : ℝ);
    -(p * Real.logb 2 p)).sum

/-- JS division as it occurs in `calculateDiffusion`: a zero denominator
yields `NaN`, modeled as `none` (the numerator `changes` is at most the
denominator `plaintext.length`, so the only reachable zero-denominator case
is `0/0 = NaN`; the `x/0 = Infinity` case cannot occur there). -/
def jsDivQ (a b : ℚ) : Option ℚ := if b = 0 then none else some (a / b)

/-- JS `<` against a possibly-`NaN` left operand: every comparison with
`NaN` is false. -/
def jsLt (x : Option ℚ) (y : ℚ) : Bool :=
  match x with
  | some a => decide (a < y)
  | none => false

/-- `calculateDiffusion(plaintext, ciphertext)` (evaluator.js lines 346-359):
percentage of same-index characters that differ; fixed at 50 when the
lengths differ.  When both strings are empty the lengths match and the JS
code computes `(0/0) * 100 = NaN`, modeled as `none`. -/
def calculateDiffusion (plaintext ciphertext : List Char) : Option ℚ :=
  if plaintext.length ≠ ciphertext.length then some 50
  else (jsDivQ (((plaintext.zip ciphertext).countP fun pr => pr.1 != pr.2) : ℚ)
      (plaintext.length : ℚ)).map fun q => q * 100

/-- `analyzeFrequencySkew(text)` (evaluator.js lines 367-388):
standard-deviation-to-mean ratio of the A-Z letter frequencies, scaled to
0-100 and capped at 100; 100 when there are no letters. -/
noncomputable def analyzeFrequencySkew (text : List Char) : ℝ :=
  let letters := text.filter isAZ
  let freqArray : List ℝ := letters.dedup.map fun c => (letters.count c : ℝ)
  if freqArray.length = 0 then 100
  else
    let avgFreq := freqArray.sum / (freqArray.length : ℝ)
    let variance := (freqArray.map fun f => (f - avgFreq) ^ 2).sum / (freqArray.length : ℝ)
    min 100 (Real.sqrt variance / avgFreq * 100)

/-- `isIdentical(plaintext, ciphertext)` (evaluator.js lines 407-409). -/
def isIdentical (plaintext ciphertext : List Char) : Bool := plaintext == ciphertext

/-- `isSimpleReversal(plaintext, ciphertext)` (evaluator.js lines 396-399). -/
def isSimpleReversal (plaintext ciphertext : List Char) : Bool :=
  plaintext.reverse == ciphertext

/-- `estimateKeySpace(pipeline)` (evaluator.js lines 416-436, the effective
second version, which has no `polygon` case: polygon nodes fall to the
`default: bits += 1` branch). -/
noncomputable def estimateKeySpace (nodes : List CipherNode) : ℝ :=
  (nodes.map fun n =>
    match n with
    | .shift _ => Real.logb 2 26
    | .multiply _ => Real.logb 2 12
    | .reverse => 1
    | .polygon _ => 1).sum

/-- The score breakdown object returned by `evaluateCipher`.  The
`diffusion` and `final` fields are the only ones a JS `NaN` (modeled as
`none`) can reach — it enters through `calculateDiffusion` and propagates
through `Math.min`, the score sum and the final clamp, while the penalty
comparisons against `NaN` are simply false. -/
structure ScoreBreakdown where
  base : ℝ
  entropy : ℝ
  diffusion : Option ℝ
  keySpace : ℝ
  penalties : ℝ
  final : Option ℝ

/-- `evaluateCipher(plaintext, ciphertext, pipeline)` (evaluator.js lines
446-518, the effective second version): base 60, capped entropy/diffusion/
key-space boosts, five penalties subtracted from both the running score and
the `penalties` field, and the final score clamped to [0, 100].  Each
`pen`_i is the amount subtracted by the corresponding penalty branch.
`diffusion` is `NaN` (`none`) exactly when both inputs are empty; then
`Math.min(12, NaN)`, the `score` accumulator and
`Math.max(0, Math.min(100, score))` are all `NaN` — mapping over the option
models that propagation — and `NaN < 30` is false, so the diffusion penalty
does not fire. -/
noncomputable def evaluateCipher (plaintext ciphertext : List Char)
    (pipeline : List CipherNode) : ScoreBreakdown :=
  let entropyDelta := max 0 (calculateEntropy ciphertext - calculateEntropy plaintext)
  let entropyBoost := min 20 (entropyDelta * 8)
  let diffusion := calculateDiffusion plaintext ciphertext
  let diffusionScore : Option ℝ := diffusion.map fun d : ℚ => min 12 ((d : ℝ) * 0.12)
  let keySpaceScore := min 8 (estimateKeySpace pipeline)
  let pen1 : ℝ := if isIdentical plaintext ciphertext then -25 else 0
  let pen2 : ℝ := if isSimpleReversal plaintext ciphertext then -15 else 0
  let pen3 : ℝ := if jsLt diffusion 30 then -10 else 0
  let pen4 : ℝ := if analyzeFrequencySkew ciphertext < 20 then -5 else 0
  let pen5 : ℝ := if pipeline.isEmpty then -40 else 0
  let score := diffusionScore.map fun ds => 60 + entropyBoost + ds + keySpaceScore
    + pen1 + pen2 + pen3 + pen4 + pen5
  ⟨60, entropyBoost, diffusionScore, keySpaceScore,
    pen1 + pen2 + pen3 + pen4 + pen5, score.map fun sc => max 0 (min 100 sc)⟩

/-- The spec's per-node key multiplicity (§4.3 step 4): Shift 26, Multiply
12, Reverse 2, any other node type 2. -/
def specMultiplicity (n : CipherNode) : ℕ :=
  match n with
  | .shift _ => 26
  | .multiply _ => 12
  | .reverse => 2
  | .polygon _ => 2

/-- The spec's diffusion percentage (§4.3 step 3): the percentage (0-100)
of same-index differing characters, 50 when the lengths differ.  This is a
plain real quantity — the spec's percentage of an empty string is 0, with no
`NaN`. -/
def specPct (plaintext ciphertext : List Char) : ℚ :=
  if plaintext.length ≠ ciphertext.length then 50
  else ((((plaintext.zip ciphertext).countP fun pr => pr.1 != pr.2) : ℚ)
      / (plaintext.length : ℚ)) * 100

/-- The scoring algorithm exactly as the spec words it (§4.3): every term
written as a closed formula, `keySpace` as a sum of `log2` of the per-node
multiplicities, penalties as one sum, and
`final = clamp(base + entropy + diffusion + keySpace + penalties, 0, 100)`.
The `some` wrappers mark that the spec's breakdown is always a real number,
never the `NaN` the code can produce. -/
noncomputable def evaluateCipherSpec (plaintext ciphertext : List Char)
    (pipeline : List CipherNode) : ScoreBreakdown :=
  let entropy := min 20 (max 0 (calculateEntropy ciphertext - calculateEntropy plaintext) * 8)
  let pct := specPct plaintext ciphertext
  let diffusion : ℝ := min 12 ((pct : ℝ) * 0.12)
  let keySpace := min 8 ((pipeline.map fun n => Real.logb 2 (specMultiplicity n : ℝ)).sum)
  let penalties : ℝ :=
    (if ciphertext = plaintext then -25 else 0) +
    (if ciphertext = plaintext.reverse then -15 else 0) +
    (if pct < 30 then -10 else 0) +
    (if analyzeFrequencySkew ciphertext < 20 then -5 else 0) +
    (if pipeline = [] then -40 else 0)
  ⟨60, entropy, some diffusion, keySpace, penalties,
    some (max 0 (min 100 (60 + entropy + diffusion + keySpace + penalties)))⟩

/-!  Attack simulator (attack.js). -/

/-- JS `Math.round`: round half toward positive infinity. -/
def jsRound (q : ℚ) : ℤ := ⌊q + 1 / 2⌋

/-- `frequencyAnalysisAttack(ciphertext).penalty` (attack.js lines 13-42):
zero without letters; otherwise `min(30, max(0, topFrequency - 0.15) * 100)`
rounded, where `topFrequency` is the largest relative letter frequency (the
source sorts the frequency list descending and reads index 0; all counts are
positive, so folding `max` over the list computes the same value).  The
result object's description string is display-only and not modeled. -/
def frequencyAnalysisAttack (ciphertext : List Char) : ℤ :=
  let letters := ciphertext.filter isAZ
  if letters.length = 0 then 0
  else
    let freqValues : List ℚ := letters.dedup.map fun c =>
      (letters.count c : ℚ) / (letters.length : ℚ)
    let topFreq := freqValues.foldr max 0
    let domination := max 0 (topFreq - 0.15)
    jsRound (min 30 (domination * 100))

/-- The fields of the brute-force attack result that the claims reference
(the duration string and component list are display-only). -/
structure BruteForceResult where
  penalty : ℤ
  combinations : ℕ

/-- `bruteForceAttack(pipeline)` (attack.js lines 51-115): multiply the
per-node key-space sizes (switch on `node.type` with `default: 2`), divide
by 1,000,000 tests/second, and bucket the resulting time into a penalty. -/
def bruteForceAttack (pipeline : List CipherNode) : BruteForceResult :=
  let totalCombinations : ℕ := pipeline.foldl
    (fun acc n => acc * match n with
      | .shift _ => 26
      | .multiply _ => 12
      | .reverse => 2
      | .polygon _ => 2) 1
  let secondsNeeded : ℚ := (totalCombinations : ℚ) / 1000000
  let minutesNeeded : ℚ := secondsNeeded / 60
  let hoursNeeded : ℚ := minutesNeeded / 60
  let penalty : ℤ :=
    if secondsNeeded < 1 then 40
    else if secondsNeeded < 60 then 30
    else if minutesNeeded < 60 then 15
    else if hoursNeeded < 24 then 5
    else 0
  ⟨penalty, totalCombinations⟩

/-- The fields of the `runAttacks` report the claims reference. -/
structure AttackReport where
  totalPenalty : ℤ
  showAnimation : Bool

/-- `runAttacks(plaintext, ciphertext, pipeline)` (attack.js lines 124-151):
the returned `totalPenalty` caps the penalty sum at 50, while the
`showAnimation` flag compares the pre-cap sum with 0 (the source reads the
local accumulator, not the capped field). -/
def runAttacks (plaintext ciphertext : List Char) (pipeline : List CipherNode) :
    AttackReport :=
  let freqPenalty := frequencyAnalysisAttack ciphertext
  let bfPenalty := (bruteForceAttack pipeline).penalty
  let totalPenalty := freqPenalty + bfPenalty
  ⟨min 50 totalPenalty, decide (0 < totalPenalty)⟩

/-- The spec's brute-force time buckets (§4.4), in seconds:
under 1 s, under 60 s, under 60 min, under 24 h, at least 24 h. -/
def specBruteBucket (secondsNeeded : ℚ) : ℤ :=
  if secondsNeeded < 1 then 40
  else if secondsNeeded < 60 then 30
  else if secondsNeeded < 3600 then 15
  else if secondsNeeded < 86400 then 5
  else 0

/-!  Geometry analyzer (nodes.js lines 219-332). -/

/-- A 2D point with exact rational coordinates standing for the JS floats. -/
structure Point where
  x : ℚ
  y : ℚ
deriving DecidableEq

/-- `distance(p1, p2)` (nodes.js lines 219-221): Euclidean distance. -/
noncomputable def distance (p1 p2 : Point) : ℝ :=
  Real.sqrt (((p2.x - p1.x : ℚ) : ℝ) ^ 2 + ((p2.y - p1.y : ℚ) : ℝ) ^ 2)

/-- `polygonArea(vertices)` (nodes.js lines 228-238): `|shoelace sum / 2|`
over the cyclic vertex list, 0 below 3 vertices. -/
def polygonArea (vertices : List Point) : ℚ :=
  if vertices.length < 3 then 0
  else
    let total := (vertices.zip (vertices.rotate 1)).foldl
      (fun acc pq => acc + pq.1.x * pq.2.y - pq.2.x * pq.1.y) 0
    |total / 2|

/-- The `{valid, error, sides}` object returned by `validatePolygon`. -/
structure ValidationResult where
  valid : Bool
  error : String
  sides : ℕ
deriving DecidableEq

/-- `validatePolygon(vertices)` (nodes.js lines 306-332), checks in source
order; the double loop over `i < j` finds some unordered pair at distance
below `minDist = 15`, i.e. the negation of pairwise separation. -/
noncomputable def validatePolygon (vertices : List Point) : ValidationResult :=
  if vertices.length < 3 then ⟨false, "Need at least 3 vertices", 0⟩
  else if 12 < vertices.length then ⟨false, "Too many vertices (max 12)", 0⟩
  else if ¬ vertices.Pairwise (fun p q => ¬ (distance p q < 15)) then
    ⟨false, "Vertices too close together", 0⟩
  else if polygonArea vertices < 100 then ⟨false, "Polygon too small", 0⟩
  else ⟨true, "", vertices.length⟩

/-!  Character-level helper lemmas. -/

theorem toNat_ofNat_small (n : ℕ) (h : n < 55296) : (Char.ofNat n).toNat = n := by
  have hv : n.isValidChar := Or.inl h
  simp only [Char.ofNat, hv, dite_true, Char.ofNatAux, Char.toNat]
  simp [UInt32.toNat, BitVec.toNat_ofNatLt]

theorem neg_tmod (a b : ℤ) : (-a).tmod b = -(a.tmod b) := by
  rw [Int.tmod_def, Int.tmod_def, Int.neg_tdiv]
  ring

theorem tmod26_bounds (x : ℤ) : -25 ≤ x.tmod 26 ∧ x.tmod 26 ≤ 25 := by
  rcases le_or_lt 0 x with hx | hx
  · have h1 := Int.tmod_nonneg (26 : ℤ) hx
    have h2 := Int.tmod_lt_of_pos x (show (0:ℤ) < 26 by norm_num)
    omega
  · have hx2 : 0 ≤ -x := by omega
    have h1 := Int.tmod_nonneg (26 : ℤ) hx2
    have h2 := Int.tmod_lt_of_pos (-x) (show (0:ℤ) < 26 by norm_num)
    have h3 := neg_tmod x 26
    omega

theorem tmod_cast_nat (a k : ℕ) : ((a : ℤ) + k).tmod 26 = ((a + k) % 26 : ℕ) := by
  have h : ((a : ℤ) + k) = ((a + k : ℕ) : ℤ) := by push_cast; ring
  rw [h, Int.tmod_eq_emod (by positivity) (by norm_num)]
  norm_cast

/-- For an A-Z letter, `shiftChar` emits a character with code
`(code - 65 + key).tmod 26 + 65`, always in `[40, 90]`. -/
theorem shiftChar_toNat (key : ℤ) (c : Char) (h : isAZ c = true) :
    (shiftChar key c).toNat = (((c.toNat : ℤ) - 65 + key).tmod 26 + 65).toNat ∧
    40 ≤ (shiftChar key c).toNat ∧ (shiftChar key c).toNat ≤ 90 := by
  have hb := tmod26_bounds ((c.toNat : ℤ) - 65 + key)
  have hsmall : ((((c.toNat : ℤ) - 65 + key).tmod 26 + 65).toNat) < 55296 := by omega
  unfold shiftChar
  rw [if_pos h, toNat_ofNat_small _ hsmall]
  omega

theorem mulChar_toNat (key : ℤ) (c : Char) (h : isAZ c = true) :
    (mulChar key c).toNat = ((key * ((c.toNat : ℤ) - 65)).tmod 26 + 65).toNat ∧
    40 ≤ (mulChar key c).toNat ∧ (mulChar key c).toNat ≤ 90 := by
  have hb := tmod26_bounds (key * ((c.toNat : ℤ) - 65))
  have hsmall : (((key * ((c.toNat : ℤ) - 65)).tmod 26 + 65).toNat) < 55296 := by omega
  unfold mulChar
  rw [if_pos h, toNat_ofNat_small _ hsmall]
  omega

theorem jsToUpper_toNat (c : Char) :
    (jsToUpper c).toNat = if 97 ≤ c.toNat ∧ c.toNat ≤ 122 then c.toNat - 32 else c.toNat := by
  unfold jsToUpper
  by_cases h : 97 ≤ c.toNat ∧ c.toNat ≤ 122
  · have hc : (97 ≤ c.toNat && c.toNat ≤ 122) = true := by
      simp [h.1, h.2]
    rw [hc, if_pos rfl, if_pos h, toNat_ofNat_small _ (by omega)]
  · have hc : (97 ≤ c.toNat && c.toNat ≤ 122) = false := by
      rcases Decidable.not_and_iff_or_not.mp h with h1 | h1 <;> simp [h1]
    rw [hc, if_neg h]
    simp

theorem isLowerAZ_jsToUpper (c : Char) : isLowerAZ (jsToUpper c) = false := by
  have h := jsToUpper_toNat c
  unfold isLowerAZ
  by_cases hc : 97 ≤ c.toNat ∧ c.toNat ≤ 122
  · rw [if_pos hc] at h
    simp only [Bool.and_eq_false_iff, decide_eq_false_iff_not, not_le]
    omega
  · rw [if_neg hc] at h
    simp only [Bool.and_eq_false_iff, decide_eq_false_iff_not, not_le]
    omega

/-- Characters whose code already lies outside `[97, 122]` are `jsToUpper`
fixed points. -/
theorem jsToUpper_fixed (c : Char) (h : ¬ (97 ≤ c.toNat ∧ c.toNat ≤ 122)) :
    jsToUpper c = c := by
  unfold jsToUpper
  rw [if_neg]
  intro hcontra
  simp only [Bool.and_eq_true, decide_eq_true_eq] at hcontra
  exact h hcontra

theorem jsToUpper_idem (c : Char) : jsToUpper (jsToUpper c) = jsToUpper c := by
  by_cases hc : 97 ≤ c.toNat ∧ c.toNat ≤ 122
  · have ht : (jsToUpper c).toNat = c.toNat - 32 := by
      rw [jsToUpper_toNat, if_pos hc]
    exact jsToUpper_fixed _ (by omega)
  · rw [jsToUpper_fixed c hc]
    exact jsToUpper_fixed c hc

/-!  Claim theorems. -/

/-- Claim C8: applying `Reverse` twice returns the original string exactly;
`ReverseNode.apply` is an involution. -/
theorem reverseApply_involution (s : List Char) : reverseApply (reverseApply s) = s :=
  List.reverse_reverse s

/-- Claim C9: `MultiplyNode.setKey(k)` with a key whose JS residue mod 26 is
already in the coprime set leaves the stored key unchanged (in particular it
does not become `k`): `validateKey` assigns the field only in its correction
branch, and `setKey` does nothing else. -/
theorem multiplySetKey_valid_key_noop (cur : Option ℤ) (key : ℤ)
    (h : key.tmod 26 ∈ validKeysList) : multiplySetKey key cur = cur := by
  unfold multiplySetKey multiplyValidateKey
  rw [if_pos h]

/-- Witness for C9 at `setKey(3)` on a node currently storing 5: the stored
key stays 5. -/
theorem multiplySetKey_valid_key_noop_witness :
    (3 : ℤ).tmod 26 ∈ validKeysList ∧ multiplySetKey 3 (some 5) = some 5 :=
  ⟨by decide, multiplySetKey_valid_key_noop (some 5) 3 (by decide)⟩

/-- Counterexample for C7: `removeNode(-1)` on a one-node pipeline is not a
no-op — JS `splice` wraps negative indices from the end and removes the last
node. -/
theorem removeNode_negative_index_cex :
    removeNode [CipherNode.reverse] (-1) = [] ∧
    removeNode [CipherNode.reverse] (-1) ≠ [CipherNode.reverse] := by
  constructor
  · rfl
  · decide

/-- Claim C7 (amended): `removeNode(index)` is a no-op for every index at or
above the node-list length; negative indices instead wrap from the end per
JS `splice` semantics. -/
theorem removeNode_out_of_range_noop (nodes : List CipherNode) (index : ℤ)
    (h : (nodes.length : ℤ) ≤ index) : removeNode nodes index = nodes := by
  have h0 : ¬ index < 0 := by omega
  have hs : (min index (nodes.length : ℤ)).toNat = nodes.length := by omega
  simp only [removeNode, if_neg h0, hs]
  rw [List.take_length, List.drop_eq_nil_of_le (by omega), List.append_nil]

/-- Witness for C7 (amended) at index 5 past a one-node pipeline. -/
theorem removeNode_out_of_range_noop_witness :
    (([CipherNode.reverse] : List CipherNode).length : ℤ) ≤ 5 ∧
    removeNode [CipherNode.reverse] 5 = [CipherNode.reverse] :=
  ⟨by norm_num, removeNode_out_of_range_noop [CipherNode.reverse] 5 (by norm_num)⟩

/-- Counterexample for C4: `Multiply(27)` keeps 27 (its residue 1 mod 26 is
in the coprime set, so no correction fires), yet 27 is not a member of the
set `{1,3,5,7,9,11,15,17,19,21,23,25}`; and `Multiply(-3)` stores JS
`undefined`, because the fallback index `-3 % 12 = -3` is a negative array
read. -/
theorem multiplyNew_stores_noncanonical_cex :
    multiplyNew 27 = some 27 ∧ (27 : ℤ) ∉ validKeysList ∧ multiplyNew (-3) = none := by
  refine ⟨by decide, by decide, by decide⟩

/-- Claim C4 (amended): for every nonnegative key, construction stores an
integer key coprime to 26 — the original key when its residue mod 26 is in
the coprime set (that key may itself lie outside the set, e.g. 27), else the
fallback `validKeys[key mod 12]`, a member of the set; `Multiply(13)` stores
3, never 13.  (Negative keys can store `undefined`, see the counterexample.) -/
theorem multiplyNew_coprime :
    (∀ key : ℤ, 0 ≤ key →
      (multiplyNew key).isSome = true ∧
      Int.gcd ((multiplyNew key).getD 0) 26 = 1 ∧
      (key.tmod 26 ∉ validKeysList → (multiplyNew key).getD 0 ∈ validKeysList)) ∧
    multiplyNew 13 = some 3 := by
  constructor
  · intro key hkey
    by_cases hmem : key.tmod 26 ∈ validKeysList
    · have hnew : multiplyNew key = some key := by
        unfold multiplyNew multiplyValidateKey
        rw [if_pos hmem]
      refine ⟨by rw [hnew]; rfl, ?_, fun hn => absurd hmem hn⟩
      rw [hnew, Option.getD_some]
      rw [Int.tmod_eq_emod hkey (by norm_num)] at hmem
      have hemod : key % 26 = ((key.toNat % 26 : ℕ) : ℤ) := by omega
      rw [hemod] at hmem
      have hgcd : Int.gcd key 26 = Nat.gcd (key.toNat % 26) 26 := by
        unfold Int.gcd
        have h1 : key.natAbs = key.toNat := by omega
        have h2 : (26 : ℤ).natAbs = 26 := rfl
        rw [h1, h2, Nat.gcd_comm, Nat.gcd_rec]
      rw [hgcd]
      obtain ⟨r, hrlt, hre⟩ : ∃ r, r < 26 ∧ key.toNat % 26 = r :=
        ⟨_, Nat.mod_lt _ (by norm_num), rfl⟩
      rw [hre] at hmem ⊢
      interval_cases r <;> revert hmem <;> decide
    · have hidx1 : 0 ≤ key.tmod 12 := Int.tmod_nonneg 12 hkey
      have hidx2 : key.tmod 12 < 12 := Int.tmod_lt_of_pos key (by norm_num)
      have hlen : (key.tmod 12).toNat < validKeysList.length := by
        simp only [validKeysList, List.length]
        omega
      have hget : jsArrayGet validKeysList (key.tmod 12) =
          some (validKeysList.get ⟨(key.tmod 12).toNat, hlen⟩) := by
        unfold jsArrayGet
        rw [if_pos hidx1, List.get?_eq_get hlen]
      have hnew : multiplyNew key = some (validKeysList.get ⟨(key.tmod 12).toNat, hlen⟩) := by
        unfold multiplyNew multiplyValidateKey
        rw [if_neg hmem, hget]
      have hmem2 : validKeysList.get ⟨(key.tmod 12).toNat, hlen⟩ ∈ validKeysList :=
        List.get_mem validKeysList _ hlen
      have hall : ∀ x ∈ validKeysList, Int.gcd x 26 = 1 := by decide
      refine ⟨by rw [hnew]; rfl, ?_, fun _ => by rw [hnew, Option.getD_some]; exact hmem2⟩
      rw [hnew, Option.getD_some]
      exact hall _ hmem2
  · decide

/-- Witness for C4 (amended) at `Multiply(13)`: a key is stored, it is
coprime to 26, and — 13 not being in the set — it is a set member. -/
theorem multiplyNew_coprime_witness :
    0 ≤ (13 : ℤ) ∧
    ((multiplyNew 13).isSome = true ∧ Int.gcd ((multiplyNew 13).getD 0) 26 = 1 ∧
      ((13 : ℤ).tmod 26 ∉ validKeysList → (multiplyNew 13).getD 0 ∈ validKeysList)) :=
  ⟨by norm_num, multiplyNew_coprime.1 13 (by norm_num)⟩

/-- The spec's description of `Shift.apply` (§4.2): the key is first
normalized mod 26 to a nonnegative amount, then added to the 0-indexed
letter position; the sum is reduced mod 26 and re-emitted as uppercase. -/
def shiftSpecChar (key : ℤ) (c : Char) : Char :=
  if isAZ c then Char.ofNat ((c.toNat - 65 + (key % 26).toNat) % 26 + 65) else c

/-- `Shift.apply` as the spec words it: uppercase, then `shiftSpecChar`. -/
def shiftSpecApply (key : ℤ) (s : List Char) : List Char :=
  (s.map jsToUpper).map (shiftSpecChar key)

/-- Counterexample for C5: with key `-1` the source performs no mod-26
normalization — the JS truncated remainder of the negative sum is negative,
and `'A'` maps to `'@'`, which is not a letter at all, while the spec's
normalized arithmetic would give `'Z'`. -/
theorem shiftApply_negative_key_cex :
    shiftApply (-1) ['A'] = ['@'] ∧ isAZ '@' = false ∧
    shiftSpecApply (-1) ['A'] = ['Z'] := by
  refine ⟨by decide, by decide, by decide⟩

/-- For nonnegative keys the source's truncated remainder agrees with the
spec's normalized arithmetic, character by character. -/
theorem shiftChar_eq_spec (key : ℤ) (h : 0 ≤ key) (c : Char) :
    shiftChar key c = shiftSpecChar key c := by
  unfold shiftChar shiftSpecChar
  by_cases hAZ : isAZ c = true
  · rw [if_pos hAZ, if_pos hAZ]
    have hc2 : 65 ≤ c.toNat := by
      unfold isAZ at hAZ
      simp only [Bool.and_eq_true, decide_eq_true_eq] at hAZ
      exact hAZ.1
    have he : ((c.toNat : ℤ) - 65 + key).tmod 26 = ((c.toNat : ℤ) - 65 + key) % 26 :=
      Int.tmod_eq_emod (by omega) (by norm_num)
    rw [he]
    congr 1
    omega
  · rw [if_neg hAZ, if_neg hAZ]

/-- Claim C5 (amended): for every nonnegative integer key, `Shift.apply`
equals the spec's normalized-mod-26 description, and every letter of the
uppercased input is re-emitted as a letter in A-Z (for negative keys this
fails, see the counterexample). -/
theorem shiftApply_nonneg_matches_spec (key : ℤ) (h : 0 ≤ key) (s : List Char) :
    shiftApply key s = shiftSpecApply key s ∧
    ((s.map jsToUpper).all fun c => !(isAZ c) || isAZ (shiftChar key c)) = true := by
  constructor
  · unfold shiftApply shiftSpecApply
    exact congrArg (fun g => (s.map jsToUpper).map g) (funext fun c => shiftChar_eq_spec key h c)
  · rw [List.all_eq_true]
    intro c hc
    by_cases hAZ : isAZ c = true
    · have hs := shiftChar_toNat key c hAZ
      have hc2 : 65 ≤ c.toNat := by
        unfold isAZ at hAZ
        simp only [Bool.and_eq_true, decide_eq_true_eq] at hAZ
        exact hAZ.1
      have hnn : 0 ≤ ((c.toNat : ℤ) - 65 + key).tmod 26 :=
        Int.tmod_nonneg 26 (by omega)
      have hval : 65 ≤ (shiftChar key c).toNat ∧ (shiftChar key c).toNat ≤ 90 := by
        omega
      have : isAZ (shiftChar key c) = true := by
        unfold isAZ
        simp only [Bool.and_eq_true, decide_eq_true_eq]
        omega
      simp [this]
    · simp [hAZ]

/-- Witness for C5 (amended) at key 3 on input `['A', '!']`. -/
theorem shiftApply_nonneg_matches_spec_witness :
    0 ≤ (3 : ℤ) ∧
    (shiftApply 3 ['A', '!'] = shiftSpecApply 3 ['A', '!'] ∧
      ((['A', '!'].map jsToUpper).all fun c => !(isAZ c) || isAZ (shiftChar 3 c)) = true) :=
  ⟨by norm_num, shiftApply_nonneg_matches_spec 3 (by norm_num) ['A', '!']⟩

theorem isLowerAZ_eq_false_of_le (c : Char) (h : c.toNat ≤ 96) : isLowerAZ c = false := by
  unfold isLowerAZ
  simp only [Bool.and_eq_false_iff, decide_eq_false_iff_not, not_le]
  omega

theorem isLowerAZ_shiftChar_jsToUpper (key : ℤ) (c : Char) :
    isLowerAZ (shiftChar key (jsToUpper c)) = false := by
  by_cases hAZ : isAZ (jsToUpper c) = true
  · exact isLowerAZ_eq_false_of_le _ (by have := (shiftChar_toNat key _ hAZ).2.2; omega)
  · have hfix : shiftChar key (jsToUpper c) = jsToUpper c := by
      unfold shiftChar
      rw [if_neg hAZ]
    rw [hfix]
    exact isLowerAZ_jsToUpper c

theorem isLowerAZ_mulChar (key : ℤ) (c : Char) (h : isLowerAZ c = false) :
    isLowerAZ (mulChar key c) = false := by
  by_cases hAZ : isAZ c = true
  · exact isLowerAZ_eq_false_of_le _ (by have := (mulChar_toNat key _ hAZ).2.2; omega)
  · have hfix : mulChar key c = c := by
      unfold mulChar
      rw [if_neg hAZ]
    rw [hfix]
    exact h

theorem map_jsToUpper_idem (s : List Char) :
    (s.map jsToUpper).map jsToUpper = s.map jsToUpper := by
  rw [List.map_map]
  exact congrArg (fun g => s.map g) (funext jsToUpper_idem)

/-- The per-character form of `PolygonNode.apply` stage 1, with its code
range. -/
theorem polyShiftChar_eq (sa : ℕ) (c : Char) :
    (if isAZ c then Char.ofNat ((c.toNat - 65 + sa) % 26 + 65) else c) =
      shiftChar (sa : ℤ) c ∧
    isLowerAZ (if isAZ c then Char.ofNat ((c.toNat - 65 + sa) % 26 + 65) else c) =
      isLowerAZ c := by
  by_cases hAZ : isAZ c = true
  · have hc2 : 65 ≤ c.toNat := by
      unfold isAZ at hAZ
      simp only [Bool.and_eq_true, decide_eq_true_eq] at hAZ
      exact hAZ.1
    have hm : (c.toNat - 65 + sa) % 26 + 65 < 55296 := by
      have := Nat.mod_lt (c.toNat - 65 + sa) (show 0 < 26 by norm_num)
      omega
    have ht : (Char.ofNat ((c.toNat - 65 + sa) % 26 + 65)).toNat
        = (c.toNat - 65 + sa) % 26 + 65 := toNat_ofNat_small _ (by omega)
    constructor
    · rw [if_pos hAZ]
      unfold shiftChar
      rw [if_pos hAZ]
      have hcast : (c.toNat : ℤ) - 65 + (sa : ℤ) = ((c.toNat - 65 : ℕ) : ℤ) + (sa : ℕ) := by
        omega
      rw [hcast, tmod_cast_nat]
      all_goals congr 1
      all_goals omega
    · rw [if_pos hAZ]
      have h1 : isLowerAZ (Char.ofNat ((c.toNat - 65 + sa) % 26 + 65)) = false := by
        apply isLowerAZ_eq_false_of_le
        rw [ht]
        have := Nat.mod_lt (c.toNat - 65 + sa) (show 0 < 26 by norm_num)
        omega
      have h2 : isLowerAZ c = false := by
        apply isLowerAZ_eq_false_of_le
        unfold isAZ at hAZ
        simp only [Bool.and_eq_true, decide_eq_true_eq] at hAZ
        omega
      rw [h1, h2]
  · rw [if_neg hAZ]
    unfold shiftChar
    rw [if_neg hAZ]
    exact ⟨rfl, rfl⟩

/-- Claim C10: the three letter-transforming node operations uppercase the
whole input before transforming — each equals its own value on the
pre-uppercased input, so lowercase letters are substituted, not passed
through — and their outputs never contain an ASCII lowercase letter. -/
theorem apply_no_lowercase (key : ℤ) (p : PolygonNode) (s : List Char) :
    ((shiftApply key s).all fun c => !(isLowerAZ c)) = true ∧
    ((multiplyApply key s).all fun c => !(isLowerAZ c)) = true ∧
    ((polygonApply p s).all fun c => !(isLowerAZ c)) = true ∧
    shiftApply key s = shiftApply key (s.map jsToUpper) ∧
    multiplyApply key s = multiplyApply key (s.map jsToUpper) ∧
    polygonApply p s = polygonApply p (s.map jsToUpper) := by
  have hmul : ∀ t : List Char,
      ((t.map jsToUpper).map (mulChar key)).all (fun c => !(isLowerAZ c)) = true := by
    intro t
    rw [List.all_eq_true]
    intro x hx
    rw [List.map_map] at hx
    obtain ⟨c, hc, rfl⟩ := List.mem_map.mp hx
    simp only [Function.comp_apply, Bool.not_eq_true']
    exact isLowerAZ_mulChar key _ (isLowerAZ_jsToUpper c)
  refine ⟨?_, hmul s, ?_, ?_, ?_, ?_⟩
  · rw [List.all_eq_true]
    intro x hx
    unfold shiftApply at hx
    rw [List.map_map] at hx
    obtain ⟨c, hc, rfl⟩ := List.mem_map.mp hx
    simp only [Function.comp_apply, Bool.not_eq_true']
    exact isLowerAZ_shiftChar_jsToUpper key c
  · unfold polygonApply
    by_cases hcv : p.convex = true
    · rw [hcv]
      simp only [if_true]
      rw [List.all_eq_true]
      intro x hx
      rw [List.map_map, List.map_map] at hx
      obtain ⟨c, hc, rfl⟩ := List.mem_map.mp hx
      simp only [Function.comp_apply, Bool.not_eq_true']
      have hstage1 := (polyShiftChar_eq (polygonShiftAmount p.numSides) (jsToUpper c)).2
      have hnotLower : isLowerAZ
          (if isAZ (jsToUpper c) then
            Char.ofNat ((((jsToUpper c).toNat - 65 + polygonShiftAmount p.numSides) % 26 + 65))
          else jsToUpper c) = false := by
        rw [hstage1]
        exact isLowerAZ_jsToUpper c
      exact isLowerAZ_mulChar _ _ hnotLower
    · rw [if_neg hcv]
      rw [List.all_eq_true]
      intro x hx
      rw [List.map_map] at hx
      obtain ⟨c, hc, rfl⟩ := List.mem_map.mp hx
      simp only [Function.comp_apply, Bool.not_eq_true']
      have hstage1 := (polyShiftChar_eq (polygonShiftAmount p.numSides) (jsToUpper c)).2
      rw [hstage1]
      exact isLowerAZ_jsToUpper c
  · unfold shiftApply
    rw [map_jsToUpper_idem]
  · unfold multiplyApply
    rw [map_jsToUpper_idem]
  · unfold polygonApply
    rw [map_jsToUpper_idem]

/-- Uppercasing a `Shift.apply` output changes nothing: A-Z letters stay, and
pass-through characters were already uppercased. -/
theorem jsToUpper_shiftChar (key : ℤ) (c : Char) :
    jsToUpper (shiftChar key (jsToUpper c)) = shiftChar key (jsToUpper c) := by
  by_cases hAZ : isAZ (jsToUpper c) = true
  · have hb := (shiftChar_toNat key _ hAZ).2
    exact jsToUpper_fixed _ (by omega)
  · have hfix : shiftChar key (jsToUpper c) = jsToUpper c := by
      unfold shiftChar
      rw [if_neg hAZ]
    rw [hfix, jsToUpper_idem]

theorem map_jsToUpper_shiftApply (key : ℤ) (s : List Char) :
    (shiftApply key s).map jsToUpper = shiftApply key s := by
  unfold shiftApply
  rw [List.map_map]
  apply List.map_congr_left
  intro a ha
  obtain ⟨c, hc, rfl⟩ := List.mem_map.mp ha
  exact jsToUpper_shiftChar key c

/-- Claim C1: `PolygonNode.apply` is exactly `Shift.apply` with key
`numSides mod 26` (3 when that is 0), followed — iff the polygon is convex —
by `Multiply.apply` with key `validCoprimeKeys[floor(sideVariance × 2) mod 12]`;
a concave polygon gets the shift stage only.  `sideVariance ≥ 0` holds for
every constructed node (it is a standard deviation of the vertex list's edge
lengths). -/
theorem polygonApply_shift_then_multiply (p : PolygonNode) (s : List Char)
    (h : 0 ≤ p.sideVariance) :
    polygonApply p s =
      if p.convex then
        multiplyApply (validKeysList.getD ((⌊p.sideVariance * 2⌋).toNat % 12) 0)
          (shiftApply ((if p.numSides % 26 = 0 then 3 else p.numSides % 26 : ℕ) : ℤ) s)
      else shiftApply ((if p.numSides % 26 = 0 then 3 else p.numSides % 26 : ℕ) : ℤ) s := by
  have hps : ((if p.numSides % 26 = 0 then 3 else p.numSides % 26 : ℕ) : ℤ)
      = ((polygonShiftAmount p.numSides : ℕ) : ℤ) := rfl
  rw [hps]
  have hstage1 : ((s.map jsToUpper).map fun c =>
      if isAZ c then Char.ofNat ((c.toNat - 65 + polygonShiftAmount p.numSides) % 26 + 65)
      else c) = shiftApply ((polygonShiftAmount p.numSides : ℕ) : ℤ) s := by
    unfold shiftApply
    exact congrArg (fun g => (s.map jsToUpper).map g)
      (funext fun c => (polyShiftChar_eq (polygonShiftAmount p.numSides) c).1)
  have hidx : ((⌊p.sideVariance * 2⌋).tmod 12).toNat = (⌊p.sideVariance * 2⌋).toNat % 12 := by
    have hfl : 0 ≤ ⌊p.sideVariance * 2⌋ := Int.floor_nonneg.mpr (by positivity)
    rw [Int.tmod_eq_emod hfl (by norm_num)]
    omega
  unfold polygonApply
  by_cases hcv : p.convex = true
  · rw [hcv]
    simp only [if_true]
    rw [hidx, hstage1]
    unfold multiplyApply
    rw [map_jsToUpper_shiftApply]
    rfl
  · rw [if_neg hcv, if_neg hcv]
    exact hstage1

/-- A sample convex polygon node (square-like: 4 sides, variance 2). -/
def samplePolygon : PolygonNode := ⟨4, true, 2⟩

/-- Witness for C1 at a concrete convex node and input. -/
theorem polygonApply_shift_then_multiply_witness :
    0 ≤ samplePolygon.sideVariance ∧
    polygonApply samplePolygon ['A', 'b'] =
      (if samplePolygon.convex then
        multiplyApply (validKeysList.getD ((⌊samplePolygon.sideVariance * 2⌋).toNat % 12) 0)
          (shiftApply
            ((if samplePolygon.numSides % 26 = 0 then 3
              else samplePolygon.numSides % 26 : ℕ) : ℤ) ['A', 'b'])
      else shiftApply
        ((if samplePolygon.numSides % 26 = 0 then 3
          else samplePolygon.numSides % 26 : ℕ) : ℤ) ['A', 'b']) :=
  ⟨by norm_num [samplePolygon], polygonApply_shift_then_multiply samplePolygon ['A', 'b']
    (by norm_num [samplePolygon])⟩

/-- Squared distance, the rational quantity deciding the `minDist` check. -/
def sqDist (p q : Point) : ℚ := (q.x - p.x) ^ 2 + (q.y - p.y) ^ 2

theorem distance_lt_15 (p q : Point) (h : sqDist p q < 225) : distance p q < 15 := by
  unfold distance
  rw [Real.sqrt_lt' (show (0:ℝ) < 15 by norm_num)]
  have h2 : ((sqDist p q : ℚ) : ℝ) < ((225 : ℚ) : ℝ) := by exact_mod_cast h
  unfold sqDist at h2
  push_cast at h2
  have h15 : (15 : ℝ) ^ 2 = 225 := by norm_num
  rw [h15]
  push_cast
  linarith

theorem distance_ge_15 (p q : Point) (h : 225 ≤ sqDist p q) : ¬ (distance p q < 15) := by
  rw [not_lt]
  unfold distance
  rw [Real.le_sqrt (by norm_num) (by positivity)]
  have h2 : ((225 : ℚ) : ℝ) ≤ ((sqDist p q : ℚ) : ℝ) := by exact_mod_cast h
  unfold sqDist at h2
  push_cast at h2
  have h15 : (15 : ℝ) ^ 2 = 225 := by norm_num
  rw [h15]
  push_cast
  linarith

/-- The 10×10 square of the spec's boundary test. -/
def squareTen : List Point := [⟨0, 0⟩, ⟨10, 0⟩, ⟨10, 10⟩, ⟨0, 10⟩]

/-- A triangle of area exactly 100 whose vertices are pairwise at least 15
apart: (0,0), (30,0), (15, 20/3). -/
def triangleArea100 : List Point := [⟨0, 0⟩, ⟨30, 0⟩, ⟨15, 20 / 3⟩]

theorem polygonArea_squareTen : polygonArea squareTen = 100 := by
  unfold polygonArea squareTen
  rw [if_neg (by norm_num)]
  norm_num [List.rotate_cons_succ, List.zip_cons_cons, List.cons_append, List.nil_append,
    List.foldl, abs_of_nonneg]

theorem validatePolygon_squareTen :
    validatePolygon squareTen = ⟨false, "Vertices too close together", 0⟩ := by
  have h1 : ¬ (squareTen.length < 3) := by decide
  have h2 : ¬ (12 < squareTen.length) := by decide
  have h3 : ¬ squareTen.Pairwise (fun p q => ¬ (distance p q < 15)) := by
    intro hp
    unfold squareTen at hp
    rw [List.pairwise_cons] at hp
    exact (hp.1 ⟨10, 0⟩ (by simp)) (distance_lt_15 _ _ (by norm_num [sqDist]))
  unfold validatePolygon
  rw [if_neg h1, if_neg h2, if_pos h3]

theorem polygonArea_triangle : polygonArea triangleArea100 = 100 := by
  unfold polygonArea triangleArea100
  rw [if_neg (by norm_num)]
  norm_num [List.rotate_cons_succ, List.zip_cons_cons, List.cons_append, List.nil_append,
    List.foldl, abs_of_nonneg]

theorem validatePolygon_triangle :
    validatePolygon triangleArea100 = ⟨true, "", 3⟩ := by
  have h1 : ¬ (triangleArea100.length < 3) := by decide
  have h2 : ¬ (12 < triangleArea100.length) := by decide
  have hPair : triangleArea100.Pairwise (fun p q => ¬ (distance p q < 15)) := by
    unfold triangleArea100
    refine List.Pairwise.cons ?_ (List.Pairwise.cons ?_ (List.pairwise_singleton _ _))
    · intro q hq
      rcases List.mem_cons.mp hq with rfl | hq2
      · exact distance_ge_15 _ _ (by norm_num [sqDist])
      · rcases List.mem_singleton.mp hq2 with rfl
        exact distance_ge_15 _ _ (by norm_num [sqDist])
    · intro q hq
      rcases List.mem_singleton.mp hq with rfl
      exact distance_ge_15 _ _ (by norm_num [sqDist])
  have h4 : ¬ (polygonArea triangleArea100 < 100) := by
    rw [polygonArea_triangle]
    norm_num
  unfold validatePolygon
  rw [if_neg h1, if_neg h2, if_neg (not_not_intro hPair), if_neg h4]
  rfl

/-- Counterexample for C3: `polygonArea` of the 10×10 square is exactly 100,
but `validatePolygon` rejects it — its adjacent vertices are only 10 apart,
under the `minDist = 15` all-pairs check, so `valid` is `false`, not `true`. -/
theorem squareTen_not_valid_cex :
    polygonArea squareTen = 100 ∧ (validatePolygon squareTen).valid = false := by
  refine ⟨polygonArea_squareTen, ?_⟩
  rw [validatePolygon_squareTen]

/-- Claim C3 (amended): the square's area is exactly 100, yet
`validatePolygon` rejects it with "Vertices too close together" (adjacent
vertices at distance 10 < 15); the 100-square-unit area minimum itself is
boundary-inclusive, witnessed by an area-100 triangle whose vertices pass
the distance check and which validates as `valid = true`. -/
theorem area_minimum_boundary :
    polygonArea squareTen = 100 ∧
    validatePolygon squareTen = ⟨false, "Vertices too close together", 0⟩ ∧
    polygonArea triangleArea100 = 100 ∧
    validatePolygon triangleArea100 = ⟨true, "", 3⟩ :=
  ⟨polygonArea_squareTen, validatePolygon_squareTen,
    polygonArea_triangle, validatePolygon_triangle⟩

theorem foldl_mul_eq_prod (f : CipherNode → ℕ) (l : List CipherNode) (i : ℕ) :
    l.foldl (fun acc n => acc * f n) i = i * (l.map f).prod := by
  induction l generalizing i with
  | nil => simp
  | cons x xs ih =>
    simp only [List.foldl_cons, List.map_cons, List.prod_cons]
    rw [ih, Nat.mul_assoc]

theorem bruteForce_combinations (pl : List CipherNode) :
    (bruteForceAttack pl).combinations = (pl.map specMultiplicity).prod := by
  have hfun : (fun (acc : ℕ) (n : CipherNode) => acc *
      match n with
      | .shift _ => 26
      | .multiply _ => 12
      | .reverse => 2
      | .polygon _ => 2) = fun acc n => acc * specMultiplicity n := by
    funext acc n
    cases n <;> rfl
  show pl.foldl _ 1 = _
  rw [hfun, foldl_mul_eq_prod, Nat.one_mul]

theorem bruteForce_penalty_eq (pl : List CipherNode) :
    (bruteForceAttack pl).penalty =
      specBruteBucket (((pl.map specMultiplicity).prod : ℚ) / 1000000) := by
  have hcomb := bruteForce_combinations pl
  unfold bruteForceAttack at hcomb ⊢
  unfold specBruteBucket
  simp only at hcomb
  rw [hcomb]
  set s : ℚ := (((pl.map specMultiplicity).prod : ℕ) : ℚ) / 1000000 with hs
  have hm : s / 60 < 60 ↔ s < 3600 := by
    rw [div_lt_iff (by norm_num : (0:ℚ) < 60)]
    norm_num
  have hh : s / 60 / 60 < 24 ↔ s < 86400 := by
    rw [div_lt_iff (by norm_num : (0:ℚ) < 60), div_lt_iff (by norm_num : (0:ℚ) < 60)]
    norm_num
  simp only [hm, hh]

theorem bruteForce_penalty_nonneg (pl : List CipherNode) :
    0 ≤ (bruteForceAttack pl).penalty := by
  unfold bruteForceAttack
  simp only
  split_ifs <;> norm_num

theorem freq_penalty_nonneg (ct : List Char) : 0 ≤ frequencyAnalysisAttack ct := by
  unfold frequencyAnalysisAttack
  by_cases hlen : (ct.filter isAZ).length = 0
  · rw [if_pos hlen]
  · rw [if_neg hlen]
    unfold jsRound
    have hd : (0:ℚ) ≤ max 0 (((ct.filter isAZ).dedup.map fun c =>
        ((ct.filter isAZ).count c : ℚ) / ((ct.filter isAZ).length : ℚ)).foldr max 0 - 0.15) :=
      le_max_left 0 _
    have hmin : (0:ℚ) ≤ min 30 (max 0 (((ct.filter isAZ).dedup.map fun c =>
        ((ct.filter isAZ).count c : ℚ) / ((ct.filter isAZ).length : ℚ)).foldr max 0 - 0.15)
        * 100) := le_min (by norm_num) (by positivity)
    have := Int.floor_nonneg.mpr (by linarith : (0:ℚ) ≤ min 30 (max 0 ((((ct.filter isAZ).dedup.map fun c =>
        ((ct.filter isAZ).count c : ℚ) / ((ct.filter isAZ).length : ℚ)).foldr max 0) - 0.15)
        * 100) + 1 / 2)
    exact this

/-- Claim C6: the brute-force attack multiplies the per-node multiplicities
(empty product 1), buckets seconds-to-exhaust at 1 million tests/second into
the spec's penalty table, and `runAttacks` caps the summed penalty at 50
with `showAnimation` true exactly when the total penalty is positive. -/
theorem runAttacks_matches_spec (pt ct : List Char) (pl : List CipherNode) :
    (bruteForceAttack pl).combinations = (pl.map specMultiplicity).prod ∧
    (bruteForceAttack pl).penalty =
      specBruteBucket (((pl.map specMultiplicity).prod : ℚ) / 1000000) ∧
    (runAttacks pt ct pl).totalPenalty =
      min 50 (frequencyAnalysisAttack ct + (bruteForceAttack pl).penalty) ∧
    ((runAttacks pt ct pl).showAnimation = true ↔ 0 < (runAttacks pt ct pl).totalPenalty) := by
  refine ⟨bruteForce_combinations pl, bruteForce_penalty_eq pl, rfl, ?_⟩
  show (decide (0 < frequencyAnalysisAttack ct + (bruteForceAttack pl).penalty) = true) ↔
    0 < min 50 (frequencyAnalysisAttack ct + (bruteForceAttack pl).penalty)
  rw [decide_eq_true_iff]
  simp [lt_min_iff]

/-- Per-node bits of the code's `estimateKeySpace` equal `log2` of the
spec's multiplicity table (`1 = log2 2` for Reverse and the default). -/
theorem nodeBits_eq (n : CipherNode) :
    (match n with
      | .shift _ => Real.logb 2 26
      | .multiply _ => Real.logb 2 12
      | .reverse => (1:ℝ)
      | .polygon _ => 1) = Real.logb 2 (specMultiplicity n : ℝ) := by
  cases n <;> simp only [specMultiplicity] <;> push_cast
  · norm_num
  · exact (Real.logb_self_eq_one (by norm_num)).symm
  · norm_num
  · exact (Real.logb_self_eq_one (by norm_num)).symm

theorem estimateKeySpace_eq_spec (pl : List CipherNode) :
    estimateKeySpace pl = (pl.map fun n => Real.logb 2 (specMultiplicity n : ℝ)).sum := by
  unfold estimateKeySpace
  exact congrArg List.sum (List.map_congr_left fun n _ => nodeBits_eq n)

/-- Away from the both-empty input, `calculateDiffusion` is the spec's
percentage: either the lengths differ (50) or the plaintext is nonempty and
the division is by a nonzero length. -/
theorem calculateDiffusion_eq_spec (pt ct : List Char) (h : ¬(pt = [] ∧ ct = [])) :
    calculateDiffusion pt ct = some (specPct pt ct) := by
  unfold calculateDiffusion specPct
  by_cases hlen : pt.length ≠ ct.length
  · rw [if_pos hlen, if_pos hlen]
  · rw [if_neg hlen, if_neg hlen]
    have hpt : pt ≠ [] := by
      intro hnil
      apply h
      refine ⟨hnil, ?_⟩
      rw [← List.length_eq_zero]
      rw [not_not] at hlen
      rw [← hlen, hnil]
      rfl
    have hden : (pt.length : ℚ) ≠ 0 := by
      simp only [ne_eq, Nat.cast_eq_zero, List.length_eq_zero]
      exact hpt
    unfold jsDivQ
    rw [if_neg hden, Option.map_some']

/-- Counterexample for C2: at `plaintext = ciphertext = ""` (with any
pipeline; the empty one shown) the JS code computes `diffusion = 0/0 = NaN`,
so the −10 diffusion penalty does not fire (`NaN < 30` is false, penalties
total −80 where the spec's formula gives −90) and `final` is `NaN`, not the
clamped sum the claim asserts for every input. -/
theorem evaluateCipher_empty_cex :
    (evaluateCipher [] [] []).final = none ∧
    (evaluateCipher [] [] []).penalties = -80 ∧
    (evaluateCipherSpec [] [] []).penalties = -90 ∧
    evaluateCipher [] [] [] ≠ evaluateCipherSpec [] [] [] := by
  have hdiff : calculateDiffusion [] [] = none := by
    unfold calculateDiffusion jsDivQ
    simp
  have hskew : analyzeFrequencySkew [] = 100 := by
    unfold analyzeFrequencySkew
    simp
  have hfin : (evaluateCipher [] [] []).final = none := by
    unfold evaluateCipher
    rw [hdiff]
    rfl
  have hpen : (evaluateCipher [] [] []).penalties = -80 := by
    unfold evaluateCipher
    rw [hdiff]
    simp only [hskew]
    norm_num [isIdentical, isSimpleReversal, jsLt, List.isEmpty]
  have hpenS : (evaluateCipherSpec [] [] []).penalties = -90 := by
    unfold evaluateCipherSpec
    have hpct : specPct [] [] = 0 := by
      unfold specPct
      simp
    simp only [hpct, hskew]
    norm_num
  refine ⟨hfin, hpen, hpenS, ?_⟩
  intro heq
  have hp := congrArg ScoreBreakdown.penalties heq
  rw [hpen, hpenS] at hp
  norm_num at hp

/-- Claim C2 (amended): for every plaintext, ciphertext and pipeline where
the plaintext and ciphertext are not both empty, `evaluateCipher` produces
exactly the breakdown the spec describes — base 60,
`entropy = min(20, max(0, ΔH) × 8)`, `diffusion = min(12, pct × 0.12)` with
the 50 default on length change, `keySpace = min(8, Σ log2(multiplicity))`
over the spec's table, the five independent penalties −25/−15/−10/−5/−40,
and `final = clamp(base + entropy + diffusion + keySpace + penalties, 0,
100)`.  At the both-empty input the JS arithmetic instead yields a `NaN`
diffusion, skips the −10 penalty and returns `final = NaN` (see the
counterexample). -/
theorem evaluateCipher_matches_spec (pt ct : List Char) (pl : List CipherNode)
    (h : ¬(pt = [] ∧ ct = [])) :
    evaluateCipher pt ct pl = evaluateCipherSpec pt ct pl := by
  unfold evaluateCipher evaluateCipherSpec
  have hid : (isIdentical pt ct = true) = (ct = pt) := by
    unfold isIdentical
    exact propext (beq_iff_eq.trans eq_comm)
  have hrev : (isSimpleReversal pt ct = true) = (ct = pt.reverse) := by
    unfold isSimpleReversal
    exact propext (beq_iff_eq.trans eq_comm)
  have hemp : (pl.isEmpty = true) = (pl = []) := by
    simp [List.isEmpty_iff]
  have hlt : (jsLt (some (specPct pt ct)) 30 = true) = (specPct pt ct < 30) := by
    simp [jsLt]
  rw [estimateKeySpace_eq_spec, calculateDiffusion_eq_spec pt ct h]
  simp only [hid, hrev, hemp, hlt, Option.map_some']
  rw [ScoreBreakdown.mk.injEq]
  refine ⟨rfl, rfl, rfl, rfl, rfl, ?_⟩
  congr 1
  congr 1
  congr 1
  ring

/-- Witness for C2 (amended) at a one-character pair and the empty
pipeline. -/
theorem evaluateCipher_matches_spec_witness :
    ¬((['A'] : List Char) = [] ∧ (['B'] : List Char) = []) ∧
    evaluateCipher ['A'] ['B'] [] = evaluateCipherSpec ['A'] ['B'] [] :=
  ⟨by decide, evaluateCipher_matches_spec ['A'] ['B'] [] (by decide)⟩

end CipherDash
